import Mathlib

/-!
Verification of the Markov-chain gibberish generator (src/main.c) against its
specification.  The C program is shallowly embedded: the global hash table
`statetab` becomes a function from bucket index to bucket list, linked lists
become Lean lists in the same traversal order, `unsigned int` arithmetic is
Nat arithmetic mod 2^32, and the stream of `rand()` results is an explicit
function from call index to drawn value.  C strings are modelled as Lean
strings; the byte-wise hash walks the characters' code points, which agrees
with the C bytes on ASCII input.
-/

namespace Markov

/-- Number of tokens in a window (NPREF in main.c). -/
def NPREF : Nat := 2

/-- Number of hash buckets (HASHSIZE in main.c). -/
def HASHSIZE : Nat := 4093

/-- The sentinel word (NONWORD in main.c): the newline string, which can never
be produced by the whitespace-splitting tokenizer. -/
def NONWORD : String := "\n"

/-- A token is one whitespace-delimited word. -/
abbrev Token := String

/-- One chain entry (struct State in main.c): the stored window tuple and its
suffix bag.  The singly linked `Suffix` list is a `List Token` in the order
the C code walks it from `sp->suffixes`, so the head is the node most
recently pushed by `add_suffix`.  The C field `prefix` is called `pfx`
here. -/
structure State where
  pfx : List Token
  suffixes : List Token
deriving DecidableEq

/-- The hash table `statetab`: bucket index to list of states, in the order
the C code walks the `next` pointers (new states are pushed on the front). -/
abbrev Statetab := Nat → List State

/-- The table before any training: every bucket empty. -/
def emptyTab : Statetab := fun _ => []

/-- One step of the hash loop in main.c: `h = h * 31 + byte`, in unsigned int
arithmetic (mod 2^32). -/
def hashStep (h : Nat) (c : Char) : Nat :=
  (h * 31 + c.toNat) % 2 ^ 32

/-- Fold one word of the window into the hash accumulator, byte by byte. -/
def hashWord (h : Nat) (s : Token) : Nat :=
  s.data.foldl hashStep h

/-- hash from main.c: fold all NPREF words of the window, then reduce mod
HASHSIZE. -/
def hash (s : List Token) : Nat :=
  (s.foldl hashWord 0) % HASHSIZE

/-- lookup from main.c: scan the bucket `hash p` for a state whose stored
window matches `p` position by position; when `create` is set and no match
exists, push a fresh state (owning a copy of the window, empty suffix list)
on the front of the bucket.  Returns the found or created state together
with the possibly updated table. -/
def lookup (tab : Statetab) (p : List Token) (create : Bool) :
    Option State × Statetab :=
  match (tab (hash p)).find? (fun sp => sp.pfx == p) with
  | some sp => (some sp, tab)
  | none =>
      if create then
        let sp : State := { pfx := p, suffixes := [] }
        (some sp, Function.update tab (hash p) (sp :: tab (hash p)))
      else (none, tab)

/-- add_suffix from main.c: a new Suffix node is pushed on the FRONT of the
state's suffix list (`suf->next = sp->suffixes; sp->suffixes = suf`). -/
def add_suffix (sp : State) (suffix : Token) : State :=
  { sp with suffixes := suffix :: sp.suffixes }

/-- The effect of add_suffix through the pointer returned by lookup: the
first state of the bucket whose window matches `p` gets the new suffix, in
place; the rest of the bucket is untouched. -/
def bucketAdd : List State → List Token → Token → List State
  | [], _, _ => []
  | sp :: rest, p, suffix =>
      if sp.pfx == p then add_suffix sp suffix :: rest
      else sp :: bucketAdd rest p suffix

/-- add from main.c: lookup-or-create the window's state, push the suffix
occurrence onto it, then slide the window (memmove drops the oldest word and
the suffix becomes the newest).  Returns the new table and the slid
window. -/
def add (tab : Statetab) (p : List Token) (suffix : Token) :
    Statetab × List Token :=
  let tab1 := (lookup tab p true).2
  (Function.update tab1 (hash p) (bucketAdd (tab1 (hash p)) p suffix),
   p.drop 1 ++ [suffix])

/-- The fscanf loop of build in main.c, from a given table and window over
the remaining token stream.  Returns the final table and final window. -/
def buildFrom (tab : Statetab) (p : List Token) :
    List Token → Statetab × List Token
  | [] => (tab, p)
  | t :: ts =>
      let s := add tab p t
      buildFrom s.1 s.2 ts

/-- The initial window: NPREF sentinel words. -/
def initWindow : List Token := List.replicate NPREF NONWORD

/-- build from main.c: the window starts as NPREF sentinels, every stream
token is recorded under the window current when it was read, and after the
stream is exhausted one final sentinel suffix is recorded under the final
window. -/
def build (ts : List Token) : Statetab :=
  let s := buildFrom emptyTab initWindow ts
  (add s.1 s.2 NONWORD).1

/-- The generation loop of generate in main.c.  `fuel` is the number of
remaining iterations of `for (i = 0; i < nwords; i++)`; `i` is the index of
the next `rand()` call in the draw stream `rand`; `p` is the current
window.  Each iteration that reaches the draw consumes exactly one value of
the draw stream, in order. -/
def generateAux (tab : Statetab) (rand : Nat → Nat) :
    Nat → Nat → List Token → List Token
  | 0, _, _ => []
  | fuel + 1, i, p =>
      match (lookup tab p false).1 with
      | none => []
      | some sp =>
          let n := sp.suffixes.length
          if hn : n = 0 then []
          else
            let r := rand i % n
            let w := sp.suffixes.get ⟨r, Nat.mod_lt _ (Nat.pos_of_ne_zero hn)⟩
            if w == NONWORD then []
            else w :: generateAux tab rand fuel (i + 1) (p.drop 1 ++ [w])

/-- generate from main.c: `nwords` is the C int loop bound, so a nonpositive
bound runs zero iterations; the window starts as NPREF sentinels.  The
result is the sequence of emitted words. -/
def generate (tab : Statetab) (rand : Nat → Nat) (nwords : Int) : List Token :=
  generateAux tab rand nwords.toNat 0 initWindow

/-- The suffix bag stored for a window: the suffix list of its state under a
non-creating lookup, or empty when the window has no state. -/
def bagOf (tab : Statetab) (p : List Token) : List Token :=
  match (lookup tab p false).1 with
  | some sp => sp.suffixes
  | none => []

/-- Slide the window: drop the oldest word, append the new one. -/
def slide (p : List Token) (t : Token) : List Token := p.drop 1 ++ [t]

/-- The (window, suffix) occurrences recorded while training from window `p`
over a stream, in order, including the final sentinel record. -/
def trainPairs (p : List Token) : List Token → List (List Token × Token)
  | [] => [(p, NONWORD)]
  | t :: ts => (p, t) :: trainPairs (slide p t) ts

/-- Bucket discipline: every state sits in the bucket given by the hash of
its stored window.  Every table reachable by training satisfies this. -/
def BucketsOk (tab : Statetab) : Prop :=
  ∀ h sp, sp ∈ tab h → hash sp.pfx = h

/-- Number of chain entries storing window `p`, summed over all buckets. -/
def entriesFor (tab : Statetab) (p : List Token) : Nat :=
  ((List.range HASHSIZE).map fun h => (tab h).countP fun sp => sp.pfx == p).sum

/-! Basic lemmas about the table operations. -/

theorem add_suffix_pfx (sp : State) (s : Token) : (add_suffix sp s).pfx = sp.pfx := rfl

theorem add_suffix_suffixes (sp : State) (s : Token) :
    (add_suffix sp s).suffixes = s :: sp.suffixes := rfl

theorem lookup_false_snd (tab : Statetab) (p : List Token) :
    (lookup tab p false).2 = tab := by
  unfold lookup
  cases (tab (hash p)).find? (fun sp => sp.pfx == p) <;> rfl

theorem lookup_false_fst (tab : Statetab) (p : List Token) :
    (lookup tab p false).1 = (tab (hash p)).find? (fun sp => sp.pfx == p) := by
  unfold lookup
  cases (tab (hash p)).find? (fun sp => sp.pfx == p) <;> rfl

theorem find?_bucketAdd_self (b : List State) (q : List Token) (s : Token) :
    (bucketAdd b q s).find? (fun sp => sp.pfx == q) =
      ((b.find? fun sp => sp.pfx == q).map fun sp => add_suffix sp s) := by
  induction b with
  | nil => rfl
  | cons sp rest ih =>
      by_cases hsp : sp.pfx = q
      · simp [bucketAdd, List.find?, hsp, add_suffix]
      · have hb : (sp.pfx == q) = false := by simp [hsp]
        simp [bucketAdd, List.find?, hb, ih]

theorem find?_bucketAdd_other (b : List State) (p q : List Token) (s : Token)
    (hpq : p ≠ q) :
    (bucketAdd b q s).find? (fun sp => sp.pfx == p) =
      b.find? (fun sp => sp.pfx == p) := by
  induction b with
  | nil => rfl
  | cons sp rest ih =>
      by_cases hsp : sp.pfx = q
      · have hbp : (sp.pfx == p) = false := by
          simp [hsp]
          exact fun h => hpq h.symm
        have hqp : (q == p) = false := by
          simp
          exact fun h => hpq h.symm
        simp [bucketAdd, List.find?, hsp, hbp, hqp, add_suffix]
      · have hb : (sp.pfx == q) = false := by simp [hsp]
        simp [bucketAdd, List.find?, hb, ih]

theorem bagOf_eq_find? (tab : Statetab) (p : List Token) :
    bagOf tab p =
      match (tab (hash p)).find? (fun sp => sp.pfx == p) with
      | some sp => sp.suffixes
      | none => [] := by
  unfold bagOf
  rw [lookup_false_fst]

/-- Effect of one add on every stored bag: the bag of the added window gains
the suffix at its front, every other bag is untouched. -/
theorem bagOf_add (tab : Statetab) (q : List Token) (s : Token) (p : List Token) :
    bagOf (add tab q s).1 p = if p = q then s :: bagOf tab q else bagOf tab p := by
  by_cases hpq : p = q
  · subst hpq
    rw [bagOf_eq_find?, bagOf_eq_find?]
    unfold add lookup
    cases hfind : (tab (hash p)).find? (fun sp => sp.pfx == p) with
    | some sp0 =>
        simp only [hfind, Function.update_same, if_pos rfl]
        rw [find?_bucketAdd_self, hfind]
        rfl
    | none =>
        simp only [hfind, if_pos rfl]
        simp only [Bool.ite_eq_true_distrib, if_true]
        rw [Function.update_same, Function.update_same]
        simp [bucketAdd, add_suffix, List.find?]
  · rw [bagOf_eq_find?]
    simp only [if_neg hpq]
    unfold add lookup
    have hqp : (q == p) = false := by
      simp
      exact fun h => hpq h.symm
    by_cases hh : hash p = hash q
    · cases hfind : (tab (hash q)).find? (fun sp => sp.pfx == q) with
      | some sp0 =>
          simp only [hfind]
          rw [hh, Function.update_same, find?_bucketAdd_other _ _ _ _ hpq, ← hh,
            bagOf_eq_find?]
      | none =>
          simp only [hfind, if_true]
          rw [hh, Function.update_same, Function.update_same]
          simp [bucketAdd, List.find?, add_suffix, hqp]
          rw [bagOf_eq_find?, hh]
    · cases hfind : (tab (hash q)).find? (fun sp => sp.pfx == q) with
      | some sp0 =>
          simp only [hfind]
          rw [Function.update_noteq hh, bagOf_eq_find?]
      | none =>
          simp only [hfind, if_true]
          rw [Function.update_noteq hh, Function.update_noteq hh, bagOf_eq_find?]

theorem add_snd (tab : Statetab) (p : List Token) (t : Token) :
    (add tab p t).2 = slide p t := rfl

theorem buildFrom_cons (tab : Statetab) (p : List Token) (t : Token)
    (ts : List Token) :
    buildFrom tab p (t :: ts) = buildFrom (add tab p t).1 (slide p t) ts := rfl

/-- Counting characterization of training: the number of occurrences of `t`
in the bag finally stored for window `p` is the number of times the pair
`(p, t)` was recorded, on top of whatever the starting table already had. -/
theorem bagOf_buildFrom_count (ts : List Token) :
    ∀ (tab : Statetab) (p0 p : List Token) (t : Token),
      (bagOf (add (buildFrom tab p0 ts).1 (buildFrom tab p0 ts).2 NONWORD).1
          p).count t
        = (bagOf tab p).count t + (trainPairs p0 ts).count (p, t) := by
  induction ts with
  | nil =>
      intro tab p0 p t
      show (bagOf (add tab p0 NONWORD).1 p).count t
        = (bagOf tab p).count t + (trainPairs p0 []).count (p, t)
      rw [bagOf_add]
      by_cases hp : p = p0
      · subst hp
        simp [trainPairs, List.count_cons]
      · simp [trainPairs, List.count_cons, if_neg hp]
        exact fun h => (hp h.symm).elim
  | cons t0 rest ih =>
      intro tab p0 p t
      rw [buildFrom_cons, ih, bagOf_add, trainPairs]
      by_cases hp : p = p0
      · subst hp
        by_cases ht : t = t0
        · subst ht
          simp [List.count_cons]
          omega
        · simp [List.count_cons, ht]
      · simp [List.count_cons, if_neg hp]
        exact fun h => (hp h.symm).elim

/-- A window that is never the recorded window of any training pair keeps its
bag (as a list) unchanged through the whole training run. -/
theorem bagOf_buildFrom_untouched (ts : List Token) :
    ∀ (tab : Statetab) (p0 p : List Token),
      (∀ q s, (q, s) ∈ trainPairs p0 ts → q ≠ p) →
      bagOf (add (buildFrom tab p0 ts).1 (buildFrom tab p0 ts).2 NONWORD).1 p
        = bagOf tab p := by
  induction ts with
  | nil =>
      intro tab p0 p hq
      have hp0 : p0 ≠ p := hq p0 NONWORD (by simp [trainPairs])
      show bagOf (add tab p0 NONWORD).1 p = bagOf tab p
      rw [bagOf_add, if_neg (fun h => hp0 h.symm)]
  | cons t0 rest ih =>
      intro tab p0 p hq
      have hp0 : p0 ≠ p := hq p0 t0 (by simp [trainPairs])
      rw [buildFrom_cons, ih _ _ _ (fun q s hmem => hq q s (by
        simp [trainPairs]
        exact Or.inr hmem)), bagOf_add, if_neg (fun h => hp0 h.symm)]

/-- The bag stored under a window after a full build counts exactly the
training pairs recorded for it (stream tokens under the window current when
each was read, plus the final sentinel under the final window). -/
theorem bagOf_build_count (ts : List Token) (p : List Token) (t : Token) :
    (bagOf (build ts) p).count t = (trainPairs initWindow ts).count (p, t) := by
  have h := bagOf_buildFrom_count ts emptyTab initWindow p t
  have hempty : bagOf emptyTab p = [] := rfl
  rw [hempty] at h
  simpa [build] using h

theorem countP_bucketAdd (b : List State) (q : List Token) (s : Token)
    (p : List Token) :
    (bucketAdd b q s).countP (fun sp => sp.pfx == p) =
      b.countP (fun sp => sp.pfx == p) := by
  induction b with
  | nil => rfl
  | cons sp rest ih =>
      by_cases hsp : sp.pfx = q
      · simp [bucketAdd, hsp, List.countP_cons, add_suffix]
      · have hb : (sp.pfx == q) = false := by simp [hsp]
        simp [bucketAdd, hb, List.countP_cons, ih]

theorem mem_bucketAdd {b : List State} {q : List Token} {s : Token} {sp : State}
    (h : sp ∈ bucketAdd b q s) : ∃ sp0 ∈ b, sp.pfx = sp0.pfx := by
  induction b with
  | nil => exact absurd h (List.not_mem_nil sp)
  | cons sp1 rest ih =>
      by_cases hsp : sp1.pfx = q
      · simp only [bucketAdd, hsp, beq_self_eq_true, if_true] at h
        rcases List.mem_cons.1 h with h | h
        · exact ⟨sp1, List.mem_cons_self _ _, by rw [h]; rfl⟩
        · exact ⟨sp, List.mem_cons_of_mem _ h, rfl⟩
      · have hb : (sp1.pfx == q) = false := by simp [hsp]
        simp only [bucketAdd, hb, Bool.false_eq_true, if_false] at h
        rcases List.mem_cons.1 h with h | h
        · exact ⟨sp1, List.mem_cons_self _ _, by rw [h]⟩
        · obtain ⟨sp0, hsp0, hpfx⟩ := ih h
          exact ⟨sp0, List.mem_cons_of_mem _ hsp0, hpfx⟩

theorem BucketsOk_empty : BucketsOk emptyTab := by
  intro h sp hmem
  exact absurd hmem (List.not_mem_nil sp)

/-- Shape of the table after an add whose window already had a state. -/
theorem add_fst_found {tab : Statetab} {q : List Token} {sp0 : State}
    (s : Token)
    (hfind : (tab (hash q)).find? (fun sp => sp.pfx == q) = some sp0) :
    (add tab q s).1 =
      Function.update tab (hash q) (bucketAdd (tab (hash q)) q s) := by
  unfold add lookup
  rw [hfind]

/-- Shape of the table after an add whose window had no state yet: the fresh
state is created with an empty bag and immediately receives the suffix. -/
theorem add_fst_new {tab : Statetab} {q : List Token} (s : Token)
    (hfind : (tab (hash q)).find? (fun sp => sp.pfx == q) = none) :
    (add tab q s).1 =
      Function.update tab (hash q) ((⟨q, [s]⟩ : State) :: tab (hash q)) := by
  unfold add lookup
  rw [hfind]
  show Function.update (Function.update tab (hash q)
        ((⟨q, []⟩ : State) :: tab (hash q))) (hash q)
      (bucketAdd ((Function.update tab (hash q)
        ((⟨q, []⟩ : State) :: tab (hash q))) (hash q)) q s) = _
  rw [Function.update_same, Function.update_idem]
  simp [bucketAdd, add_suffix]

theorem BucketsOk_add (tab : Statetab) (q : List Token) (s : Token)
    (hwf : BucketsOk tab) : BucketsOk (add tab q s).1 := by
  intro h sp hmem
  cases hfind : (tab (hash q)).find? (fun sp => sp.pfx == q) with
  | some sp0 =>
      rw [add_fst_found s hfind] at hmem
      by_cases hh : h = hash q
      · subst hh
        rw [Function.update_same] at hmem
        obtain ⟨sp1, hsp1, hpfx⟩ := mem_bucketAdd hmem
        rw [hpfx]
        exact hwf _ sp1 hsp1
      · rw [Function.update_noteq hh] at hmem
        exact hwf _ sp hmem
  | none =>
      rw [add_fst_new s hfind] at hmem
      by_cases hh : h = hash q
      · subst hh
        rw [Function.update_same] at hmem
        rcases List.mem_cons.1 hmem with h1 | h1
        · rw [h1]
        · exact hwf _ sp h1
      · rw [Function.update_noteq hh] at hmem
        exact hwf _ sp hmem

theorem BucketsOk_buildFrom (ts : List Token) :
    ∀ (tab : Statetab) (p0 : List Token), BucketsOk tab →
      BucketsOk (buildFrom tab p0 ts).1 := by
  induction ts with
  | nil => intro tab p0 hwf; exact hwf
  | cons t rest ih =>
      intro tab p0 hwf
      rw [buildFrom_cons]
      exact ih _ _ (BucketsOk_add tab p0 t hwf)

theorem BucketsOk_build (ts : List Token) : BucketsOk (build ts) :=
  BucketsOk_add _ _ _ (BucketsOk_buildFrom ts emptyTab initWindow BucketsOk_empty)

theorem hash_lt (p : List Token) : hash p < HASHSIZE :=
  Nat.mod_lt _ (by decide)

theorem sum_map_range_eq_single (f : Nat → Nat) (n h0 : Nat) (hlt : h0 < n)
    (hz : ∀ h1, h1 ≠ h0 → f h1 = 0) : ((List.range n).map f).sum = f h0 := by
  induction n with
  | zero => exact absurd hlt (Nat.not_lt_zero h0)
  | succ m ih =>
      rw [List.range_succ, List.map_append, List.sum_append]
      by_cases hm : h0 = m
      · subst hm
        have hzero : ((List.range h0).map f).sum = 0 :=
          List.sum_eq_zero (by
            intro x hx
            obtain ⟨i, hi, rfl⟩ := List.mem_map.1 hx
            exact hz i (Nat.ne_of_lt (List.mem_range.1 hi)))
        simp [hzero]
      · have h0m : h0 < m := by omega
        have hfm : f m = 0 := hz m (by omega)
        simp [ih h0m, hfm]

theorem entriesFor_congr {tab1 tab2 : Statetab} (p : List Token)
    (h : ∀ hh, (tab1 hh).countP (fun sp => sp.pfx == p) =
      (tab2 hh).countP (fun sp => sp.pfx == p)) :
    entriesFor tab1 p = entriesFor tab2 p := by
  unfold entriesFor
  rw [show (fun hh => (tab1 hh).countP fun sp => sp.pfx == p)
      = (fun hh => (tab2 hh).countP fun sp => sp.pfx == p) from funext h]

theorem countP_eq_zero_of_ne_hash {tab : Statetab} (hwf : BucketsOk tab)
    (p : List Token) (h : Nat) (hne : h ≠ hash p) :
    (tab h).countP (fun sp => sp.pfx == p) = 0 := by
  apply List.countP_eq_zero.2
  intro sp hsp
  simp only [beq_iff_eq]
  intro hpfx
  have hh := hwf h sp hsp
  rw [hpfx] at hh
  exact hne hh.symm

theorem entriesFor_eq_bucket {tab : Statetab} (hwf : BucketsOk tab)
    (p : List Token) :
    entriesFor tab p = (tab (hash p)).countP (fun sp => sp.pfx == p) := by
  unfold entriesFor
  exact sum_map_range_eq_single _ HASHSIZE (hash p) (hash_lt p)
    (fun h1 hne => countP_eq_zero_of_ne_hash hwf p h1 hne)

/-- Effect of one add on the entry count of every window: the added window
ends up with exactly one entry (it is created only when absent), every other
count is unchanged. -/
theorem entriesFor_add (tab : Statetab) (q : List Token) (s : Token)
    (p : List Token) (hwf : BucketsOk tab) :
    entriesFor (add tab q s).1 p =
      if p = q then max (entriesFor tab p) 1 else entriesFor tab p := by
  cases hfind : (tab (hash q)).find? (fun sp => sp.pfx == q) with
  | some sp0 =>
      rw [add_fst_found s hfind]
      have hcong : entriesFor
          (Function.update tab (hash q) (bucketAdd (tab (hash q)) q s)) p
          = entriesFor tab p := by
        apply entriesFor_congr
        intro hh
        by_cases hhq : hh = hash q
        · subst hhq
          rw [Function.update_same, countP_bucketAdd]
        · rw [Function.update_noteq hhq]
      rw [hcong]
      by_cases hpq : p = q
      · subst hpq
        have h1 : 0 < (tab (hash p)).countP (fun sp => sp.pfx == p) :=
          List.countP_pos_iff.2 ⟨sp0, List.mem_of_find?_eq_some hfind,
            @List.find?_some _ (fun sp => sp.pfx == p) sp0 _ hfind⟩
        have hle : 1 ≤ entriesFor tab p := by
          rw [entriesFor_eq_bucket hwf]
          omega
        rw [if_pos rfl, Nat.max_eq_left hle]
      · rw [if_neg hpq]
  | none =>
      rw [add_fst_new s hfind]
      have hzero : (tab (hash q)).countP (fun sp => sp.pfx == q) = 0 :=
        List.countP_eq_zero.2 (fun sp hsp =>
          List.find?_eq_none.1 hfind sp hsp)
      by_cases hpq : p = q
      · subst hpq
        rw [if_pos rfl]
        have hall : ∀ h1, h1 ≠ hash p →
            ((Function.update tab (hash p)
              ((⟨p, [s]⟩ : State) :: tab (hash p))) h1).countP
                (fun sp => sp.pfx == p) = 0 := by
          intro h1 hne
          rw [Function.update_noteq hne]
          exact countP_eq_zero_of_ne_hash hwf p h1 hne
        have hone : entriesFor (Function.update tab (hash p)
            ((⟨p, [s]⟩ : State) :: tab (hash p))) p = 1 := by
          unfold entriesFor
          rw [sum_map_range_eq_single _ HASHSIZE (hash p) (hash_lt p) hall,
            Function.update_same, List.countP_cons]
          simp [hzero]
        have hzeroE : entriesFor tab p = 0 := by
          rw [entriesFor_eq_bucket hwf, hzero]
        rw [hone, hzeroE]
        decide
      · rw [if_neg hpq]
        apply entriesFor_congr
        intro hh
        by_cases hhq : hh = hash q
        · subst hhq
          rw [Function.update_same, List.countP_cons]
          have hb : ((⟨q, [s]⟩ : State).pfx == p) = false := by
            simp
            exact fun h => hpq h.symm
          simp [hb]
        · rw [Function.update_noteq hhq]

/-- Entry counts after a whole training run: every window recorded at least
once has exactly one entry added on top of at most what was there, every
other window's count is unchanged. -/
theorem entriesFor_buildFrom (ts : List Token) :
    ∀ (tab : Statetab) (p0 p : List Token), BucketsOk tab →
      entriesFor (add (buildFrom tab p0 ts).1 (buildFrom tab p0 ts).2
          NONWORD).1 p
        = if (trainPairs p0 ts).any (fun pr => pr.1 == p) then
            max (entriesFor tab p) 1
          else entriesFor tab p := by
  induction ts with
  | nil =>
      intro tab p0 p hwf
      show entriesFor (add tab p0 NONWORD).1 p = _
      rw [entriesFor_add tab p0 NONWORD p hwf]
      simp only [trainPairs, List.any_cons, List.any_nil, Bool.or_false]
      by_cases hp : p = p0
      · subst hp
        simp
      · have : (p0 == p) = false := by
          simp
          exact fun h => hp h.symm
        rw [if_neg hp, this]
        simp
  | cons t0 rest ih =>
      intro tab p0 p hwf
      rw [buildFrom_cons, ih _ _ _ (BucketsOk_add tab p0 t0 hwf),
        entriesFor_add tab p0 t0 p hwf]
      simp only [trainPairs, List.any_cons]
      by_cases hp : p = p0
      · subst hp
        simp only [beq_self_eq_true, Bool.true_or, if_true, if_pos rfl]
        by_cases hrest : (trainPairs (slide p t0) rest).any
            (fun pr => pr.1 == p) = true
        · rw [if_pos hrest]
          omega
        · rw [if_neg hrest]
      · have hb : (p0 == p) = false := by
          simp
          exact fun h => hp h.symm
        simp only [if_neg hp, hb, Bool.false_or]

/-- Entry counts after build: one entry for every window that training
recorded at least one pair under, none for any other window. -/
theorem entriesFor_build (ts : List Token) (p : List Token) :
    entriesFor (build ts) p =
      if (trainPairs initWindow ts).any (fun pr => pr.1 == p) then 1 else 0 := by
  have h := entriesFor_buildFrom ts emptyTab initWindow p BucketsOk_empty
  have hzero : entriesFor emptyTab p = 0 := by
    unfold entriesFor
    exact List.sum_eq_zero (by
      intro x hx
      obtain ⟨i, _, rfl⟩ := List.mem_map.1 hx
      rfl)
  rw [hzero] at h
  simpa [build] using h

/-! Lemmas about the generation loop. -/

/-- A generation step whose window's bag is a singleton non-sentinel word
must emit that word, whatever the draw: `rand i % 1 = 0`. -/
theorem singleton_step (tab : Statetab) (rand : Nat → Nat) (fuel i : Nat)
    (p : List Token) (pf0 : List Token) (w : Token)
    (hsp : (lookup tab p false).1 = some ⟨pf0, [w]⟩)
    (hw : (w == NONWORD) = false) :
    generateAux tab rand (fuel + 1) i p
      = w :: generateAux tab rand fuel (i + 1) (p.drop 1 ++ [w]) := by
  simp [generateAux, hsp, hw, Nat.mod_one]

/-- A generation step whose window's bag is the singleton sentinel stops
without emitting, whatever the draw. -/
theorem sentinel_step (tab : Statetab) (rand : Nat → Nat) (fuel i : Nat)
    (p : List Token) (pf0 : List Token)
    (hsp : (lookup tab p false).1 = some ⟨pf0, [NONWORD]⟩) :
    generateAux tab rand (fuel + 1) i p = [] := by
  simp [generateAux, hsp, Nat.mod_one]

/-- The generation loop never emits the sentinel: the only emission site is
guarded by the sentinel test. -/
theorem generateAux_no_sentinel (tab : Statetab) (rand : Nat → Nat) :
    ∀ (fuel i : Nat) (p : List Token),
      NONWORD ∉ generateAux tab rand fuel i p := by
  intro fuel
  induction fuel with
  | zero =>
      intro i p
      simp [generateAux]
  | succ f ih =>
      intro i p
      unfold generateAux
      cases hl : (lookup tab p false).1 with
      | none => simp
      | some sp =>
          by_cases hn : sp.suffixes.length = 0
          · simp [hn]
          · simp only [hn, dite_false]
            split
            · simp
            · next hw =>
                simp only [List.mem_cons, not_or]
                refine ⟨?_, ih (i + 1) _⟩
                intro heq
                apply hw
                rw [← heq]
                simp


/-- The loop bound: at most `fuel` words are ever emitted. -/
theorem generateAux_length (tab : Statetab) (rand : Nat → Nat) :
    ∀ (fuel i : Nat) (p : List Token),
      (generateAux tab rand fuel i p).length ≤ fuel := by
  intro fuel
  induction fuel with
  | zero =>
      intro i p
      simp [generateAux]
  | succ f ih =>
      intro i p
      unfold generateAux
      cases hl : (lookup tab p false).1 with
      | none => simp
      | some sp =>
          by_cases hn : sp.suffixes.length = 0
          · simp [hn]
          · simp only [hn, dite_false]
            split
            · simp
            · simp only [List.length_cons]
              exact Nat.succ_le_succ (ih _ _)

/-- The generation loop reads the draw stream only at indices `i`, `i + 1`,
…, `i + fuel - 1`: two draw streams agreeing there generate identically. -/
theorem generateAux_congr (tab : Statetab) (r1 r2 : Nat → Nat) :
    ∀ (fuel i : Nat) (p : List Token),
      (∀ j, i ≤ j → j < i + fuel → r1 j = r2 j) →
      generateAux tab r1 fuel i p = generateAux tab r2 fuel i p := by
  intro fuel
  induction fuel with
  | zero => intro i p h; rfl
  | succ f ih =>
      intro i p h
      unfold generateAux
      cases hl : (lookup tab p false).1 with
      | none => rfl
      | some sp =>
          have hr : r1 i = r2 i := h i (Nat.le_refl i) (by omega)
          simp only [hr]
          split
          · rfl
          · split
            · rfl
            · exact congrArg _
                (ih (i + 1) _ (fun j hj1 hj2 => h j (by omega) (by omega)))

/-- Of the positions 0, …, n-1 of a bag, exactly as many select a given word
as that word has occurrences in the bag. -/
theorem sel_count (l : List Token) (T : Token) :
    ((List.range l.length).filter fun r => l.get? r == some T).length
      = l.count T := by
  induction l with
  | nil => rfl
  | cons a tl ih =>
      have hfn : ((fun r => (a :: tl).get? r == some T) ∘ Nat.succ)
          = (fun r => tl.get? r == some T) := by
        funext r
        simp [Function.comp, List.get?_cons_succ]
      rw [List.length_cons, List.range_succ_eq_map, List.filter_cons,
        List.count_cons]
      by_cases ha : (a == T) = true
      · have hp0 : ((a :: tl).get? 0 == some T) = true := by
          simp [List.get?_cons_zero]
          exact eq_of_beq ha
        rw [if_pos hp0, List.length_cons, List.filter_map, hfn,
          List.length_map, ih, if_pos ha]
      · have hp0 : ((a :: tl).get? 0 == some T) = false := by
          simp [List.get?_cons_zero]
          intro h
          exact ha (by simp [h])
        rw [if_neg (by rw [hp0]; exact Bool.false_ne_true), List.filter_map,
          hfn, List.length_map, ih, if_neg ha]
        simp

/-- Every window recorded by training after at least one real (non-sentinel)
token has been read ends in that last token, so it differs from the initial
all-sentinel window. -/
theorem trainPairs_ne_init (ts : List Token) :
    ∀ (p0 : List Token) (x : Token), (∀ t ∈ ts, t ≠ NONWORD) →
      p0.getLast? = some x → x ≠ NONWORD →
      ∀ q s, (q, s) ∈ trainPairs p0 ts → q ≠ initWindow := by
  have hinit : initWindow.getLast? = some NONWORD := rfl
  induction ts with
  | nil =>
      intro p0 x hts hlast hx q s hmem
      simp only [trainPairs, List.mem_singleton, Prod.mk.injEq] at hmem
      obtain ⟨hq, _⟩ := hmem
      subst hq
      intro he
      rw [he, hinit] at hlast
      exact hx (Option.some.inj hlast).symm
  | cons t rest ih =>
      intro p0 x hts hlast hx q s hmem
      rw [trainPairs] at hmem
      rcases List.mem_cons.1 hmem with h1 | h1
      · obtain ⟨hq, _⟩ := Prod.mk.injEq .. ▸ h1
        subst hq
        intro he
        rw [he, hinit] at hlast
        exact hx (Option.some.inj hlast).symm
      · exact ih (slide p0 t) t
          (fun u hu => hts u (List.mem_cons_of_mem _ hu))
          (List.getLast?_concat _)
          (hts t (List.mem_cons_self _ _)) q s h1

/-- A nonempty stored bag comes from a state found by lookup: recover that
state. -/
theorem lookup_of_bagOf (tab : Statetab) (p : List Token) (l : List Token)
    (hb : bagOf tab p = l) (hne : l ≠ []) :
    ∃ pf0, (lookup tab p false).1 = some ⟨pf0, l⟩ := by
  unfold bagOf at hb
  cases hl : (lookup tab p false).1 with
  | none =>
      simp only [hl] at hb
      exact absurd hb.symm hne
  | some sp =>
      simp only [hl] at hb
      refine ⟨sp.pfx, ?_⟩
      rw [← hb]

/-- After building from a nonempty sentinel-free stream, the initial window's
bag holds exactly one occurrence: the first token of the stream. -/
theorem bagOf_build_init (t0 : Token) (rest : List Token)
    (h0 : t0 ≠ NONWORD) (hr : ∀ t ∈ rest, t ≠ NONWORD) :
    bagOf (build (t0 :: rest)) initWindow = [t0] := by
  show bagOf (add (buildFrom emptyTab initWindow (t0 :: rest)).1
      (buildFrom emptyTab initWindow (t0 :: rest)).2 NONWORD).1 initWindow = [t0]
  rw [buildFrom_cons,
    bagOf_buildFrom_untouched rest _ _ _
      (fun q s hmem => trainPairs_ne_init rest (slide initWindow t0) t0 hr
        (List.getLast?_concat _) h0 q s hmem),
    bagOf_add, if_pos rfl]
  rfl

/-! The claims. -/

/-- The token stream of the golden scenario. -/
def goldenTokens : List Token := ["the", "quick", "fox", "the", "lazy", "fox"]

/-- The index built from the golden scenario's stream. -/
def goldenTab : Statetab := build goldenTokens

/-- C1: building with window order 2 from the stream the quick fox the lazy
fox maps ("the","quick") to bag {"fox"}, ("quick","fox") to {"the"},
("fox","the") to {"lazy"}, ("the","lazy") to {"fox"} and ("lazy","fox") to
{sentinel}; and for every draw stream, generating 10 words from the initial
sentinel window emits exactly the training stream and stops at the
sentinel. -/
theorem C1_golden_scenario :
    bagOf goldenTab ["the", "quick"] = ["fox"] ∧
    bagOf goldenTab ["quick", "fox"] = ["the"] ∧
    bagOf goldenTab ["fox", "the"] = ["lazy"] ∧
    bagOf goldenTab ["the", "lazy"] = ["fox"] ∧
    bagOf goldenTab ["lazy", "fox"] = [NONWORD] ∧
    ∀ rand : Nat → Nat, generate goldenTab rand 10 = goldenTokens := by
  refine ⟨by decide, by decide, by decide, by decide, by decide, ?_⟩
  intro rand
  have s1 : (lookup goldenTab ["\n", "\n"] false).1
      = some ⟨["\n", "\n"], ["the"]⟩ := by decide
  have s2 : (lookup goldenTab ["\n", "the"] false).1
      = some ⟨["\n", "the"], ["quick"]⟩ := by decide
  have s3 : (lookup goldenTab ["the", "quick"] false).1
      = some ⟨["the", "quick"], ["fox"]⟩ := by decide
  have s4 : (lookup goldenTab ["quick", "fox"] false).1
      = some ⟨["quick", "fox"], ["the"]⟩ := by decide
  have s5 : (lookup goldenTab ["fox", "the"] false).1
      = some ⟨["fox", "the"], ["lazy"]⟩ := by decide
  have s6 : (lookup goldenTab ["the", "lazy"] false).1
      = some ⟨["the", "lazy"], ["fox"]⟩ := by decide
  have s7 : (lookup goldenTab ["lazy", "fox"] false).1
      = some ⟨["lazy", "fox"], ["\n"]⟩ := by decide
  have e7 : generateAux goldenTab rand 4 6 ["lazy", "fox"] = [] :=
    sentinel_step goldenTab rand 3 6 ["lazy", "fox"] ["lazy", "fox"] s7
  have e6 : generateAux goldenTab rand 5 5 ["the", "lazy"] = ["fox"] :=
    (singleton_step goldenTab rand 4 5 ["the", "lazy"] ["the", "lazy"] "fox"
      s6 (by decide)).trans (congrArg (List.cons "fox") e7)
  have e5 : generateAux goldenTab rand 6 4 ["fox", "the"] = ["lazy", "fox"] :=
    (singleton_step goldenTab rand 5 4 ["fox", "the"] ["fox", "the"] "lazy"
      s5 (by decide)).trans (congrArg (List.cons "lazy") e6)
  have e4 : generateAux goldenTab rand 7 3 ["quick", "fox"]
      = ["the", "lazy", "fox"] :=
    (singleton_step goldenTab rand 6 3 ["quick", "fox"] ["quick", "fox"] "the"
      s4 (by decide)).trans (congrArg (List.cons "the") e5)
  have e3 : generateAux goldenTab rand 8 2 ["the", "quick"]
      = ["fox", "the", "lazy", "fox"] :=
    (singleton_step goldenTab rand 7 2 ["the", "quick"] ["the", "quick"] "fox"
      s3 (by decide)).trans (congrArg (List.cons "fox") e4)
  have e2 : generateAux goldenTab rand 9 1 ["\n", "the"]
      = ["quick", "fox", "the", "lazy", "fox"] :=
    (singleton_step goldenTab rand 8 1 ["\n", "the"] ["\n", "the"] "quick"
      s2 (by decide)).trans (congrArg (List.cons "quick") e3)
  have e1 : generateAux goldenTab rand 10 0 ["\n", "\n"] = goldenTokens :=
    (singleton_step goldenTab rand 9 0 ["\n", "\n"] ["\n", "\n"] "the"
      s1 (by decide)).trans (congrArg (List.cons "the") e2)
  exact e1

/-- C2: in any chain entry whose bag has n suffix occurrences, a token with
k occurrences is selected by exactly k of the n possible values of the
random index r, the selection being the r-th suffix in the bag's stable
iteration order — so a uniform draw picks it with probability k over n. -/
theorem C2_uniform_weighting (sp : State) (T : Token) :
    ((List.range sp.suffixes.length).filter
        fun r => sp.suffixes.get? r == some T).length
      = sp.suffixes.count T :=
  sel_count sp.suffixes T

/-- C3: generation never emits the sentinel — the only emission site is
behind the sentinel test, which stops instead. -/
theorem C3_sentinel_never_emitted (ts : List Token) (rand : Nat → Nat)
    (nwords : Int) : NONWORD ∉ generate (build ts) rand nwords :=
  generateAux_no_sentinel (build ts) rand _ 0 initWindow

/-- C4: generation always terminates within the loop bound: at most
`nwords` words are emitted for any table, including cyclic chains, and a
nonpositive bound emits nothing. -/
theorem C4_generation_bounded (tab : Statetab) (rand : Nat → Nat)
    (nwords : Int) : (generate tab rand nwords).length ≤ nwords.toNat :=
  generateAux_length tab rand _ 0 initWindow

/-- C5: after build, a window has exactly one chain entry when training
recorded at least one pair under it and none otherwise; and the bag stored
for a window holds each token exactly as often as it was recorded under
that window — the window in force just before the token was read, plus the
one final sentinel under the final window. -/
theorem C5_index_invariant (ts : List Token) (p : List Token) (t : Token) :
    entriesFor (build ts) p
        = (if (trainPairs initWindow ts).any (fun pr => pr.1 == p) then 1
           else 0)
      ∧ (bagOf (build ts) p).count t = (trainPairs initWindow ts).count (p, t) :=
  ⟨entriesFor_build ts p, bagOf_build_count ts p t⟩

/-- C6: building from an empty stream stores only the sentinel-to-sentinel
association, and generating any number of words from it emits nothing. -/
theorem C6_empty_stream :
    (∀ p, bagOf (build []) p = if p = initWindow then [NONWORD] else []) ∧
    ∀ (rand : Nat → Nat) (nwords : Int), generate (build []) rand nwords = [] := by
  constructor
  · intro p
    show bagOf (add emptyTab initWindow NONWORD).1 p = _
    rw [bagOf_add]
    by_cases hp : p = initWindow
    · subst hp
      rw [if_pos rfl, if_pos rfl]
      rfl
    · rw [if_neg hp, if_neg hp]
      rfl
  · intro rand nwords
    show generateAux (build []) rand nwords.toNat 0 initWindow = []
    cases hnw : nwords.toNat with
    | zero => rfl
    | succ k =>
        exact sentinel_step (build []) rand k 0 initWindow initWindow
          (by decide)

/-- C7: a non-creating lookup changes nothing and is an exact-match query:
it returns a state storing precisely the queried window when one exists in
the index, and returns nothing exactly when no bucket holds such a state. -/
theorem C7_lookup_pure (tab : Statetab) (p : List Token)
    (hwf : BucketsOk tab) :
    (lookup tab p false).2 = tab ∧
    (∀ sp, (lookup tab p false).1 = some sp →
      sp.pfx = p ∧ sp ∈ tab (hash p)) ∧
    ((lookup tab p false).1 = none → ∀ h sp, sp ∈ tab h → sp.pfx ≠ p) := by
  refine ⟨lookup_false_snd tab p, ?_, ?_⟩
  · intro sp hsp
    rw [lookup_false_fst] at hsp
    exact ⟨eq_of_beq (@List.find?_some _ (fun sp => sp.pfx == p) sp _ hsp),
      List.mem_of_find?_eq_some hsp⟩
  · intro hnone h sp hmem hpfx
    rw [lookup_false_fst] at hnone
    have hh := hwf h sp hmem
    rw [hpfx] at hh
    rw [← hh] at hmem
    exact List.find?_eq_none.1 hnone sp hmem (by rw [hpfx]; simp)

/-- Witness for C7 at the index built from the stream a b. -/
theorem C7_lookup_pure_witness :
    BucketsOk (build ["a", "b"]) ∧
    ((lookup (build ["a", "b"]) ["a", "b"] false).2 = build ["a", "b"] ∧
      (∀ sp, (lookup (build ["a", "b"]) ["a", "b"] false).1 = some sp →
        sp.pfx = ["a", "b"] ∧ sp ∈ build ["a", "b"] (hash ["a", "b"])) ∧
      ((lookup (build ["a", "b"]) ["a", "b"] false).1 = none →
        ∀ h sp, sp ∈ build ["a", "b"] h → sp.pfx ≠ ["a", "b"])) :=
  ⟨BucketsOk_build _, C7_lookup_pure _ _ (BucketsOk_build _)⟩

/-- C8 counterexample: add_suffix does not append — pushing "y" onto a bag
holding "x" yields iteration order ["y", "x"], not ["x", "y"]. -/
theorem C8_counterexample :
    (add_suffix ⟨["a", "b"], ["x"]⟩ "y").suffixes = ["y", "x"] ∧
    ¬ (add_suffix ⟨["a", "b"], ["x"]⟩ "y").suffixes = ["x", "y"] := by
  decide

/-- C8 amended: add_suffix PREPENDS the token, so the bag's stable
iteration order is reverse insertion order; duplicates are retained as
separate occurrences, never deduplicated or counted. -/
theorem C8_prepend_retains_duplicates (sp : State) (s : Token) :
    (add_suffix sp s).suffixes = s :: sp.suffixes ∧
    (add_suffix sp s).suffixes.length = sp.suffixes.length + 1 ∧
    ∀ u, (add_suffix sp s).suffixes.count u
      = sp.suffixes.count u + if (s == u) = true then 1 else 0 := by
  refine ⟨rfl, rfl, ?_⟩
  intro u
  exact List.count_cons u s sp.suffixes

/-- C9: generation is deterministic under fixed randomness: with the same
corpus and the same draws at the consumed indices, two build-then-generate
runs emit identical sequences. -/
theorem C9_determinism (ts : List Token) (r1 r2 : Nat → Nat) (nwords : Int)
    (h : ∀ j, j < nwords.toNat → r1 j = r2 j) :
    generate (build ts) r1 nwords = generate (build ts) r2 nwords :=
  generateAux_congr (build ts) r1 r2 nwords.toNat 0 initWindow
    (fun j hj1 hj2 => h j (by omega))

/-- Witness for C9: two draw streams agreeing below 3 generate the same
text from the index built from a b. -/
theorem C9_determinism_witness :
    (∀ j, j < (3 : Int).toNat → j = (if j < 3 then j else 7)) ∧
    generate (build ["a", "b"]) (fun j => j) 3
      = generate (build ["a", "b"]) (fun j => if j < 3 then j else 7) 3 :=
  ⟨by decide, C9_determinism ["a", "b"] _ _ 3 (by decide)⟩

/-- C10: for a nonempty sentinel-free stream the initial all-sentinel window
maps to exactly one suffix occurrence, the stream's first token; hence with
a positive word bound the first emitted word is the stream's first token,
whatever the draws. -/
theorem C10_first_token (t0 : Token) (rest : List Token) (rand : Nat → Nat)
    (nwords : Int) (h0 : t0 ≠ NONWORD) (hr : ∀ t ∈ rest, t ≠ NONWORD)
    (hn : 1 ≤ nwords) :
    bagOf (build (t0 :: rest)) initWindow = [t0] ∧
    (generate (build (t0 :: rest)) rand nwords).head? = some t0 := by
  have hbag := bagOf_build_init t0 rest h0 hr
  refine ⟨hbag, ?_⟩
  obtain ⟨pf0, hl⟩ := lookup_of_bagOf _ _ _ hbag (by simp)
  have hk : nwords.toNat = (nwords.toNat - 1) + 1 := by omega
  show (generateAux (build (t0 :: rest)) rand nwords.toNat 0
    initWindow).head? = some t0
  rw [hk, singleton_step (build (t0 :: rest)) rand (nwords.toNat - 1) 0
    initWindow pf0 t0 hl (by simp [h0])]
  simp

/-- Witness for C10 at the stream a b with five requested words. -/
theorem C10_first_token_witness :
    "a" ≠ NONWORD ∧ (∀ t ∈ (["b"] : List Token), t ≠ NONWORD) ∧
    (1 : Int) ≤ 5 ∧
    (bagOf (build ["a", "b"]) initWindow = ["a"] ∧
      (generate (build ["a", "b"]) (fun _ => 0) 5).head? = some "a") :=
  ⟨by decide, by decide, by decide,
    C10_first_token "a" ["b"] (fun _ => 0) 5 (by decide) (by decide)
      (by decide)⟩

end Markov
